import Mathlib

/-!
Verification of the DeepTutor research-pipeline data contracts
(`ResearchEventType`, `ResearchEvent`, `TopicBlock`, `TaskState`, `ToolTrace`)
and of the web API URL helpers (`resolveApiBaseUrl`, `apiUrl`, `wsUrl`).

The data contracts are transliterated from the published TypeScript type
declarations; the URL helpers are transliterated from `web/lib/api.ts`, with
JavaScript strings embedded as `List Char`.  The orchestrator core (Topic
Planner, Block Scheduler, Research Agent, Report Synthesizer) is not among the
published sources — only its data-contract surface is — so the behaviour the
specification ascribes to it (citation allocation, the per-block agent loop and
its event trace, terminal-status policy, raw-answer truncation marking) is
modelled directly from the specification's words; those definitions carry a
`Modelled from the spec:` doc comment.
-/

namespace DeepTutor

/- ===================================================================
   Part 1: research data contracts (TypeScript type declarations)
   =================================================================== -/

/-- Members of the `ResearchEventType` string-literal union, in source order. -/
def researchEventTypeNames : List String :=
  [ "planning_started", "rephrase_completed", "decompose_started",
    "decompose_completed", "queue_seeded", "planning_completed",
    "researching_started", "parallel_status_update", "block_started",
    "block_completed", "block_failed", "researching_completed",
    "iteration_started", "checking_sufficiency", "knowledge_sufficient",
    "generating_query", "tool_calling", "tool_completed", "processing_notes",
    "iteration_completed", "new_topic_added",
    "reporting_started", "deduplicate_completed", "outline_completed",
    "writing_section", "writing_completed", "reporting_completed",
    "log", "error", "status" ]

/-- Event names enumerated by the specification as recalled in the claim:
planning events (§4.1), scheduler events (§4.2), the eight agent events the
claim lists for §4.3, reporting events (§4.4) and the system types of §6.
This definition follows the claim's words, to be compared with
`researchEventTypeNames`. -/
def claimEnumeratedEventNames : List String :=
  [ "planning_started", "rephrase_completed", "decompose_started",
    "decompose_completed", "queue_seeded", "planning_completed",
    "researching_started", "block_started", "block_completed", "block_failed",
    "parallel_status_update", "researching_completed",
    "checking_sufficiency", "knowledge_sufficient", "generating_query",
    "tool_calling", "tool_completed", "processing_notes", "new_topic_added",
    "iteration_completed",
    "reporting_started", "deduplicate_completed", "outline_completed",
    "writing_section", "writing_completed", "reporting_completed",
    "log", "error", "status" ]

/-- Optionality of each declared field of the `ResearchEvent` interface:
`some true` means declared with the optional marker `?`, `some false` means
declared required, `none` means not an explicitly declared field. -/
def researchEventFieldOptional : String → Option Bool := fun f =>
  if f == "type" then some false
  else if f == "stage" then some true
  else if f == "status" then some true
  else if f == "timestamp" then some true
  else if f == "research_id" then some true
  else none

/-- Membership test of the `TopicBlock.status` string-literal union. -/
def topicBlockStatusValid (s : String) : Bool :=
  s == "pending" || s == "researching" || s == "completed" || s == "failed"

/-- Membership test of the `TaskState.status` string-literal union. -/
def taskStateStatusValid (s : String) : Bool :=
  s == "pending" || s == "running" || s == "completed" || s == "failed"

/-- C1: the claim's enumeration misses a member of the union: the code's
`ResearchEventType` contains `iteration_started`, which is not among the names
the claim enumerates. -/
theorem eventUnion_enumeration_counterexample :
    researchEventTypeNames.contains "iteration_started" = true ∧
      claimEnumeratedEventNames.contains "iteration_started" = false := by
  decide

/-- C1 (amended): every name the claim enumerates is a member of the
`ResearchEventType` union, and every member of the union is either one of the
enumerated names or the additional agent event `iteration_started`. -/
theorem eventUnion_matches_enumeration_with_iteration_started :
    claimEnumeratedEventNames.all
        (fun n => researchEventTypeNames.contains n) = true ∧
      researchEventTypeNames.all
        (fun n => claimEnumeratedEventNames.contains n
          || n == "iteration_started") = true ∧
      researchEventTypeNames.contains "iteration_started" = true := by
  decide

/-- C2: the claim's requiredness of `timestamp` and `research_id` fails on the
declaration: both carry the optional marker in the `ResearchEvent` interface. -/
theorem researchEvent_timestamp_required_counterexample :
    ¬(researchEventFieldOptional "timestamp" = some false ∧
      researchEventFieldOptional "research_id" = some false) := by
  decide

/-- C2 (amended): in the `ResearchEvent` interface only `type` is required;
`stage`, `status`, `timestamp` and `research_id` are all optional. -/
theorem researchEvent_field_optionality :
    researchEventFieldOptional "type" = some false ∧
      researchEventFieldOptional "stage" = some true ∧
      researchEventFieldOptional "status" = some true ∧
      researchEventFieldOptional "timestamp" = some true ∧
      researchEventFieldOptional "research_id" = some true := by
  decide

/-- C6: `TopicBlock.status` accepts exactly pending, researching, completed,
failed, and `TaskState.status` accepts exactly pending, running, completed,
failed. -/
theorem status_enums_exact (s : String) :
    (topicBlockStatusValid s = true ↔
      (s = "pending" ∨ s = "researching" ∨ s = "completed" ∨ s = "failed")) ∧
    (taskStateStatusValid s = true ↔
      (s = "pending" ∨ s = "running" ∨ s = "completed" ∨ s = "failed")) := by
  constructor <;>
    simp [topicBlockStatusValid, taskStateStatusValid, Bool.or_eq_true,
      beq_iff_eq, or_assoc]

/-- C6 witness: `running` is a valid `TaskState.status` and `researching` a
valid `TopicBlock.status`. -/
theorem status_enums_exact_witness :
    taskStateStatusValid "running" = true ∧
      topicBlockStatusValid "researching" = true :=
  ⟨(status_enums_exact "running").2.mpr (Or.inr (Or.inl rfl)),
   (status_enums_exact "researching").1.mpr (Or.inr (Or.inl rfl))⟩

/- ===================================================================
   Part 2: orchestration modelled from the specification
   =================================================================== -/

/-- Modelled from the spec: the global citation-id allocator (§5, §9).  The
Block Scheduler / Research Agent implementation is not among the published
sources.  §5 requires the shared citation counter to be allocated atomically,
so every run — series or parallel — serialises its ToolTrace-minting requests
into one list, each request tagged with the id of the block minting it.
`assignCitations c rs` pairs each request, in serialisation order, with the
next counter value starting from `c`. -/
def assignCitations (c : Nat) : List String → List (String × Nat)
  | [] => []
  | b :: bs => (b, c) :: assignCitations (c + 1) bs

/-- Citation ids of a run, in assignment order. -/
def citationIds (c : Nat) (rs : List String) : List Nat :=
  (assignCitations c rs).map Prod.snd

lemma citationIds_nil (c : Nat) : citationIds c [] = [] := rfl

lemma citationIds_cons (c : Nat) (b : String) (bs : List String) :
    citationIds c (b :: bs) = c :: citationIds (c + 1) bs := rfl

lemma le_of_mem_citationIds :
    ∀ (rs : List String) (c i : Nat), i ∈ citationIds c rs → c ≤ i := by
  intro rs
  induction rs with
  | nil => intro c i h; simp [citationIds_nil] at h
  | cons b bs ih =>
      intro c i h
      rw [citationIds_cons] at h
      rcases List.mem_cons.mp h with h | h
      · exact h ▸ Nat.le_refl c
      · exact Nat.le_of_succ_le (ih (c + 1) i h)

/-- C3: for every run — every serialisation of the blocks' allocation requests,
hence every execution mode — the citation ids are strictly increasing in
assignment order and pairwise distinct across all blocks. -/
theorem citationIds_strict_mono_unique (c : Nat) (rs : List String) :
    List.Pairwise (· < ·) (citationIds c rs) ∧ (citationIds c rs).Nodup := by
  have hp : ∀ (rs : List String) (c : Nat),
      List.Pairwise (· < ·) (citationIds c rs) := by
    intro rs
    induction rs with
    | nil => intro c; simp [citationIds_nil]
    | cons b bs ih =>
        intro c
        rw [citationIds_cons]
        exact List.Pairwise.cons
          (fun i hi => Nat.lt_of_succ_le (le_of_mem_citationIds bs (c + 1) i hi))
          (ih (c + 1))
  exact ⟨hp rs c, (hp rs c).imp (fun h => Nat.ne_of_lt h)⟩

/-- Modelled from the spec: the events of the §4.3 per-block agent loop. -/
inductive AgentEvent
  | checking_sufficiency
  | knowledge_sufficient
  | generating_query
  | tool_calling
  | tool_completed
  | processing_notes
  | new_topic_added
  | iteration_completed
  deriving DecidableEq, Repr

/-- Modelled from the spec: the observable outcome of one agent iteration —
the sufficiency check succeeds, or the iteration runs a tool productively
(possibly discovering a new sub-topic), or an unrecoverable tool/model error
occurs at the tool boundary (§4.3, §7). -/
inductive IterOutcome
  | sufficient
  | productive (discovered : Bool)
  | hardError
  deriving DecidableEq, Repr

/-- Modelled from the spec: a block's terminal status — `completed` with a
flag recording whether it ended with only partial knowledge (iteration budget
exhausted), or `failed` (§4.3, §7). -/
inductive BlockTerminal
  | completed (partialKnowledge : Bool)
  | failed
  deriving DecidableEq, Repr

/-- Modelled from the spec: the §4.3 per-block loop.  The list of outcomes has
one entry per remaining iteration of the configured budget; the loop runs
until sufficiency, a hard error, or the budget (the list) is exhausted, and
returns the emitted event trace together with the terminal status. -/
def runAgent : List IterOutcome → List AgentEvent × BlockTerminal
  | [] => ([], .completed true)
  | o :: rest =>
    match o with
    | .sufficient =>
        ([.checking_sufficiency, .knowledge_sufficient], .completed false)
    | .hardError =>
        ([.checking_sufficiency, .generating_query, .tool_calling], .failed)
    | .productive d =>
        let r := runAgent rest
        (.checking_sufficiency :: .generating_query :: .tool_calling ::
          .tool_completed :: .processing_notes ::
          ((if d then [.new_topic_added] else []) ++
            .iteration_completed :: r.1), r.2)

/-- States of the §4.3 state machine, named after the last event consumed;
`start` opens an iteration and `done` is the absorbing terminal state. -/
inductive LoopState
  | start
  | checked
  | queried
  | called
  | toolDone
  | notesDone
  | topicAdded
  | done
  deriving DecidableEq, Repr

/-- Modelled from the spec: the transition relation of the §4.3 state machine.
`none` means the event is not a legal transition from the state; `done` has no
outgoing transitions. -/
def loopStep : LoopState → AgentEvent → Option LoopState
  | .start, .checking_sufficiency => some .checked
  | .checked, .knowledge_sufficient => some .done
  | .checked, .generating_query => some .queried
  | .queried, .tool_calling => some .called
  | .called, .tool_completed => some .toolDone
  | .toolDone, .processing_notes => some .notesDone
  | .notesDone, .new_topic_added => some .topicAdded
  | .notesDone, .iteration_completed => some .start
  | .topicAdded, .iteration_completed => some .start
  | _, _ => none

/-- Run the §4.3 state machine over an event list; `none` rejects the list. -/
def runLoop (s : LoopState) : List AgentEvent → Option LoopState
  | [] => some s
  | e :: es =>
    match loopStep s e with
    | none => none
    | some t => runLoop t es

/-- C4: for every block, the event trace the agent loop publishes for that
block is accepted by the §4.3 state machine: every consecutive pair of events
is a machine transition, and the trace ends when the block ends, so no event
follows a terminal state. -/
theorem agent_events_valid_path (outcomes : List IterOutcome) :
    (runLoop .start (runAgent outcomes).1).isSome = true := by
  induction outcomes with
  | nil => simp [runAgent, runLoop]
  | cons o rest ih =>
      cases o with
      | sufficient => simp [runAgent, runLoop, loopStep]
      | hardError => simp [runAgent, runLoop, loopStep]
      | productive d =>
          cases d <;> simpa [runAgent, runLoop, loopStep] using ih

/-- C5: a block that exhausts its iteration budget with neither sufficiency
nor a hard tool/model error terminates `completed` with the partial-knowledge
flag, never `failed`; and a block terminates `failed` only when a hard
tool/model error occurred in some iteration. -/
theorem budget_exhaustion_completes (outcomes : List IterOutcome) :
    ((∀ o ∈ outcomes, o ≠ IterOutcome.sufficient ∧ o ≠ IterOutcome.hardError) →
        (runAgent outcomes).2 = .completed true) ∧
      ((runAgent outcomes).2 = .failed → IterOutcome.hardError ∈ outcomes) := by
  induction outcomes with
  | nil => simp [runAgent]
  | cons o rest ih =>
      constructor
      · intro h
        have ho := h o (List.mem_cons_self o rest)
        cases o with
        | sufficient => exact absurd rfl ho.1
        | hardError => exact absurd rfl ho.2
        | productive d =>
            have : (runAgent rest).2 = .completed true :=
              ih.1 (fun x hx => h x (List.mem_cons_of_mem _ hx))
            simpa [runAgent] using this
      · intro h
        cases o with
        | sufficient => simp [runAgent] at h
        | hardError => exact List.mem_cons_self _ _
        | productive d =>
            have : (runAgent rest).2 = .failed := by simpa [runAgent] using h
            exact List.mem_cons_of_mem _ (ih.2 this)

/-- C5 witness: a two-iteration budget of productive iterations ends the block
`completed` with partial knowledge. -/
theorem budget_exhaustion_completes_witness :
    (runAgent [IterOutcome.productive false,
        IterOutcome.productive true]).2 = .completed true :=
  (budget_exhaustion_completes
    [IterOutcome.productive false, IterOutcome.productive true]).1 (by decide)

/-- Mirror of the TypeScript `ToolTrace` interface: optional fields become
`Option`. -/
structure ToolTraceRec where
  tool_id : Option String
  citation_id : Option String
  tool_type : String
  query : String
  raw_answer : String
  summary : String
  timestamp : Option String
  raw_answer_truncated : Option Bool
  raw_answer_original_size : Option Nat
  deriving DecidableEq, Repr

/-- Modelled from the spec: the producer that appends ToolTrace records is
part of the unpublished orchestrator; §3 says the raw answer is possibly
truncated, with an original-size marker when truncated.  When the raw answer
exceeds the limit it is cut to the limit, the truncation flag is set and the
original size recorded; otherwise both markers are left absent. -/
def mkToolTrace (limit : Nat) (tid cid : Option String)
    (ttype q raw summ : String) (ts : Option String) : ToolTraceRec :=
  if limit < raw.length then
    { tool_id := tid, citation_id := cid, tool_type := ttype, query := q,
      raw_answer := raw.take limit, summary := summ, timestamp := ts,
      raw_answer_truncated := some true,
      raw_answer_original_size := some raw.length }
  else
    { tool_id := tid, citation_id := cid, tool_type := ttype, query := q,
      raw_answer := raw, summary := summ, timestamp := ts,
      raw_answer_truncated := none,
      raw_answer_original_size := none }

/-- C7: every ToolTrace record whose raw answer was truncated carries the
original-size marker. -/
theorem truncation_marks_original_size (limit : Nat) (tid cid : Option String)
    (ttype q raw summ : String) (ts : Option String)
    (h : (mkToolTrace limit tid cid ttype q raw summ ts).raw_answer_truncated
        = some true) :
    (mkToolTrace limit tid cid ttype q raw summ ts).raw_answer_original_size
      = some raw.length := by
  unfold mkToolTrace at h ⊢
  by_cases hl : limit < raw.length
  · simp [hl]
  · simp [hl] at h

/-- C7 witness: a six-character raw answer truncated at two characters carries
its original size. -/
theorem truncation_marks_original_size_witness :
    (mkToolTrace 2 none none "web" "q" "abcdef" "s" none).raw_answer_original_size
      = some 6 :=
  truncation_marks_original_size 2 none none "web" "q" "abcdef" "s" none
    (by decide)

/- ===================================================================
   Part 3: web/lib/api.ts — JavaScript strings embedded as List Char
   =================================================================== -/

/-- JavaScript string, embedded as its character sequence. -/
abbrev JsStr := List Char

/-- JavaScript `s.startsWith(pre)`. -/
def jsStartsWith (s pre : JsStr) : Bool :=
  match pre, s with
  | [], _ => true
  | _ :: _, [] => false
  | p :: ps, c :: cs => c == p && jsStartsWith cs ps

/-- JavaScript `s.endsWith(c)` for a one-character argument (the only use in
`api.ts` is `endsWith("/")`): the last character is `c`. -/
def endsWithChar (s : JsStr) (c : Char) : Bool :=
  s.getLast? == some c

/-- JavaScript `s.replace(anchored-pattern, repl)`: a regex anchored at the
start of the string replaces the literal pattern once when it is present. -/
def replaceAnchored (s pat repl : JsStr) : JsStr :=
  if jsStartsWith s pat then repl ++ s.drop pat.length else s

/-- Shape of `window.__RUNTIME_CONFIG__`. -/
structure RuntimeConfig where
  API_BASE_URL : Option JsStr

/-- Ambient JavaScript environment of `api.ts`: whether a `window` object
exists, the runtime-config object if any, and `process.env.API_BASE_URL`. -/
structure JsEnv where
  hasWindow : Bool
  runtimeConfig : Option RuntimeConfig
  envApiBaseUrl : Option JsStr

/-- Transliteration of `readRuntimeConfig`: outside a browser the result is
`null`; otherwise `window.__RUNTIME_CONFIG__ || null`. -/
def readRuntimeConfig (e : JsEnv) : Option RuntimeConfig :=
  if e.hasWindow then e.runtimeConfig else none

/-- JavaScript truthiness of a possibly-absent string: absent and the empty
string are falsy. -/
def jsTruthy : Option JsStr → Bool
  | none => false
  | some s => !s.isEmpty

/-- Transliteration of `resolveApiBaseUrl`. -/
def resolveApiBaseUrl (e : JsEnv) : JsStr :=
  let rt := (readRuntimeConfig e).bind RuntimeConfig.API_BASE_URL
  if jsTruthy rt then rt.getD []
  else if jsTruthy e.envApiBaseUrl then e.envApiBaseUrl.getD []
  else "http://localhost:8004/realtimex".toList

/-- Transliteration of `apiUrl`. -/
def apiUrl (e : JsEnv) (path : JsStr) : JsStr :=
  let baseUrl := resolveApiBaseUrl e
  let normalizedPath :=
    if jsStartsWith path "/".toList then path else "/".toList ++ path
  let base := if endsWithChar baseUrl '/' then baseUrl.dropLast else baseUrl
  base ++ normalizedPath

/-- Transliteration of `wsUrl`. -/
def wsUrl (e : JsEnv) (path : JsStr) : JsStr :=
  let base :=
    replaceAnchored
      (replaceAnchored (resolveApiBaseUrl e) "http:".toList "ws:".toList)
      "https:".toList "wss:".toList
  let normalizedPath :=
    if jsStartsWith path "/".toList then path else "/".toList ++ path
  let normalizedBase := if endsWithChar base '/' then base.dropLast else base
  normalizedBase ++ normalizedPath

lemma jsStartsWith_append (pre r : JsStr) :
    jsStartsWith (pre ++ r) pre = true := by
  induction pre with
  | nil => simp [jsStartsWith]
  | cons p ps ih => simp [jsStartsWith, ih]

lemma eq_append_of_jsStartsWith :
    ∀ {pre s : JsStr}, jsStartsWith s pre = true →
      s = pre ++ s.drop pre.length := by
  intro pre
  induction pre with
  | nil => intro s _; simp
  | cons p ps ih =>
      intro s h
      cases s with
      | nil => simp [jsStartsWith] at h
      | cons c cs =>
          rw [jsStartsWith, Bool.and_eq_true, beq_iff_eq] at h
          obtain ⟨h1, h2⟩ := h
          subst h1
          simpa [List.cons_append] using congrArg (c :: ·) (ih h2)

lemma endsWithChar_append_of_ne_nil (a : JsStr) {r : JsStr} (hr : r ≠ [])
    (c : Char) : endsWithChar (a ++ r) c = endsWithChar r c := by
  unfold endsWithChar
  rw [List.getLast?_append_of_ne_nil a hr]

/-- Stripping a single trailing slash distributes over an append whose left
part does not itself end in a slash. -/
lemma strip_append (pre r : JsStr) (h : endsWithChar pre '/' = false) :
    (if endsWithChar (pre ++ r) '/' then (pre ++ r).dropLast else pre ++ r)
      = pre ++ (if endsWithChar r '/' then r.dropLast else r) := by
  cases r with
  | nil => simp [endsWithChar] at h ⊢; simp [h]
  | cons c t =>
      rw [endsWithChar_append_of_ne_nil pre (List.cons_ne_nil c t)]
      by_cases hc : endsWithChar (c :: t) '/' = true
      · simp [hc, List.dropLast_append_of_ne_nil _ (List.cons_ne_nil c t)]
      · simp [Bool.not_eq_true] at hc
        simp [hc]

lemma https_not_http (r : JsStr) :
    jsStartsWith ("https:".toList ++ r) ("http:".toList) = false := rfl

lemma ws_not_https (r : JsStr) :
    jsStartsWith ("ws:".toList ++ r) ("https:".toList) = false := rfl

lemma replace_https (r : JsStr) :
    replaceAnchored ("https:".toList ++ r) "https:".toList "wss:".toList
      = "wss:".toList ++ r := by
  unfold replaceAnchored
  rw [jsStartsWith_append, List.drop_left]
  simp

lemma replace_keep_http_of_https (r : JsStr) :
    replaceAnchored ("https:".toList ++ r) "http:".toList "ws:".toList
      = "https:".toList ++ r := by
  unfold replaceAnchored
  rw [https_not_http]
  simp

lemma replace_http (r : JsStr) :
    replaceAnchored ("http:".toList ++ r) "http:".toList "ws:".toList
      = "ws:".toList ++ r := by
  unfold replaceAnchored
  rw [jsStartsWith_append, List.drop_left]
  simp

lemma replace_keep_https_of_ws (r : JsStr) :
    replaceAnchored ("ws:".toList ++ r) "https:".toList "wss:".toList
      = "ws:".toList ++ r := by
  unfold replaceAnchored
  rw [ws_not_https]
  simp

/-- C8: `resolveApiBaseUrl` takes a non-empty browser runtime-config URL
first, then a non-empty `process.env.API_BASE_URL`, and otherwise the fixed
default; without a `window` object the runtime-config source is skipped. -/
theorem resolveApiBaseUrl_precedence (e : JsEnv) (s t : JsStr) :
    (e.hasWindow = true → e.runtimeConfig = some ⟨some s⟩ → s ≠ [] →
        resolveApiBaseUrl e = s) ∧
    (jsTruthy ((readRuntimeConfig e).bind RuntimeConfig.API_BASE_URL) = false →
        e.envApiBaseUrl = some t → t ≠ [] → resolveApiBaseUrl e = t) ∧
    (jsTruthy ((readRuntimeConfig e).bind RuntimeConfig.API_BASE_URL) = false →
        jsTruthy e.envApiBaseUrl = false →
        resolveApiBaseUrl e = "http://localhost:8004/realtimex".toList) ∧
    (e.hasWindow = false → ∀ rc : Option RuntimeConfig,
        resolveApiBaseUrl { e with runtimeConfig := rc }
          = resolveApiBaseUrl { e with runtimeConfig := none }) := by
  refine ⟨?_, ?_, ?_, ?_⟩
  · intro hw hrc hs
    simp [resolveApiBaseUrl, readRuntimeConfig, hw, hrc, jsTruthy, hs]
  · intro h he ht
    simp only [resolveApiBaseUrl, h, Bool.false_eq_true, if_false, he]
    simp [jsTruthy, ht]
  · intro h h2
    simp [resolveApiBaseUrl, h, h2]
  · intro hw rc
    simp [resolveApiBaseUrl, readRuntimeConfig, hw]

/-- C8 witness: a browser environment whose runtime config carries a URL wins
over a configured environment variable. -/
theorem resolveApiBaseUrl_precedence_witness :
    resolveApiBaseUrl ⟨true, some ⟨some "http://h/".toList⟩, some "x".toList⟩
      = "http://h/".toList :=
  (resolveApiBaseUrl_precedence
      ⟨true, some ⟨some "http://h/".toList⟩, some "x".toList⟩
      ("http://h/".toList) []).1 rfl rfl (by decide)

/-- C9: `wsUrl` is `apiUrl` with only the scheme rewritten — an `https:` base
yields `wss:`, an `http:` base yields `ws:`, the rest of the two URLs is
identical, and a base with neither scheme is left untouched. -/
theorem wsUrl_scheme_rewrite_of_apiUrl (e : JsEnv) (p : JsStr) :
    (jsStartsWith (resolveApiBaseUrl e) ("https:".toList) = true →
      ∃ rest, apiUrl e p = "https:".toList ++ rest ∧
        wsUrl e p = "wss:".toList ++ rest) ∧
    (jsStartsWith (resolveApiBaseUrl e) ("http:".toList) = true →
      ∃ rest, apiUrl e p = "http:".toList ++ rest ∧
        wsUrl e p = "ws:".toList ++ rest) ∧
    (jsStartsWith (resolveApiBaseUrl e) ("http:".toList) = false →
      jsStartsWith (resolveApiBaseUrl e) ("https:".toList) = false →
      wsUrl e p = apiUrl e p) := by
  refine ⟨?_, ?_, ?_⟩
  · intro h1
    obtain ⟨r, hb⟩ : ∃ r, resolveApiBaseUrl e = "https:".toList ++ r :=
      ⟨_, eq_append_of_jsStartsWith h1⟩
    refine ⟨(if endsWithChar r '/' then r.dropLast else r) ++
      (if jsStartsWith p "/".toList then p else "/".toList ++ p), ?_, ?_⟩
    · simp only [apiUrl]
      rw [hb, strip_append _ r (by decide), List.append_assoc]
    · simp only [wsUrl]
      rw [hb, replace_keep_http_of_https, replace_https,
        strip_append _ r (by decide), List.append_assoc]
  · intro h1
    obtain ⟨r, hb⟩ : ∃ r, resolveApiBaseUrl e = "http:".toList ++ r :=
      ⟨_, eq_append_of_jsStartsWith h1⟩
    refine ⟨(if endsWithChar r '/' then r.dropLast else r) ++
      (if jsStartsWith p "/".toList then p else "/".toList ++ p), ?_, ?_⟩
    · simp only [apiUrl]
      rw [hb, strip_append _ r (by decide), List.append_assoc]
    · simp only [wsUrl]
      rw [hb, replace_http, replace_keep_https_of_ws,
        strip_append _ r (by decide), List.append_assoc]
  · intro h1 h2
    have e1 : replaceAnchored (resolveApiBaseUrl e) "http:".toList "ws:".toList
        = resolveApiBaseUrl e := by
      unfold replaceAnchored
      rw [h1]
      simp
    have e2 : replaceAnchored (resolveApiBaseUrl e) "https:".toList
        "wss:".toList = resolveApiBaseUrl e := by
      unfold replaceAnchored
      rw [h2]
      simp
    simp only [wsUrl, apiUrl, e1, e2]

/-- C9 witness: under the default base, `apiUrl` and `wsUrl` of `/ws` differ
exactly in the scheme. -/
theorem wsUrl_scheme_rewrite_of_apiUrl_witness :
    ∃ rest, apiUrl ⟨false, none, none⟩ "/ws".toList = "http:".toList ++ rest ∧
      wsUrl ⟨false, none, none⟩ "/ws".toList = "ws:".toList ++ rest :=
  (wsUrl_scheme_rewrite_of_apiUrl ⟨false, none, none⟩ "/ws".toList).2.1
    (by decide)

/-- Definition following the claim's words, for comparison with `apiUrl`: the
resolved base with a single trailing slash removed, followed directly by the
path with exactly one leading slash. -/
def claimedApiUrl (e : JsEnv) (path : JsStr) : JsStr :=
  let baseUrl := resolveApiBaseUrl e
  let base := if endsWithChar baseUrl '/' then baseUrl.dropLast else baseUrl
  base ++ ('/' :: path.dropWhile (· == '/'))

/-- C10: the claim fails on a path that already begins with two slashes: the
code keeps the extra slash, so the joined URL is not the base followed by the
path with exactly one leading slash, and a double slash does appear after the
base. -/
theorem apiUrl_exactly_one_leading_slash_counterexample :
    apiUrl ⟨false, none, none⟩ "//x".toList
      ≠ claimedApiUrl ⟨false, none, none⟩ "//x".toList := by
  decide

/-- C10 (amended): `apiUrl` adds a leading slash only when the path lacks one
(pre-existing extra slashes are kept), so prepending the missing slash
yourself changes nothing; the result is the base with a single trailing slash
removed followed by the so-normalized path; and whenever the base does not end
in a double slash and the path does not begin with one, no double slash
appears at the join point. -/
theorem apiUrl_normalization (e : JsEnv) (p : JsStr) :
    (jsStartsWith p "/".toList = false → apiUrl e p = apiUrl e ('/' :: p)) ∧
    (apiUrl e p =
      (if endsWithChar (resolveApiBaseUrl e) '/' then
        (resolveApiBaseUrl e).dropLast else resolveApiBaseUrl e) ++
      (if jsStartsWith p "/".toList then p else '/' :: p)) ∧
    ((endsWithChar (resolveApiBaseUrl e) '/' &&
        endsWithChar (resolveApiBaseUrl e).dropLast '/') = false →
      jsStartsWith p ("//".toList) = false →
      ∃ b rest, apiUrl e p = b ++ '/' :: rest ∧
        endsWithChar b '/' = false ∧ jsStartsWith rest "/".toList = false) := by
  refine ⟨?_, ?_, ?_⟩
  · intro hp
    have hp' : jsStartsWith p ['/'] = false := hp
    simp [apiUrl, jsStartsWith, hp']
  · simp [apiUrl]
  · intro hb hp
    have hbase : endsWithChar
        (if endsWithChar (resolveApiBaseUrl e) '/' then
          (resolveApiBaseUrl e).dropLast else resolveApiBaseUrl e) '/'
        = false := by
      by_cases h : endsWithChar (resolveApiBaseUrl e) '/' = true
      · simp [h] at hb ⊢
        exact hb
      · simp [Bool.not_eq_true] at h
        simp [h]
    by_cases hps : jsStartsWith p "/".toList = true
    · obtain ⟨q, hq⟩ : ∃ q, p = '/' :: q :=
        ⟨p.drop 1, by simpa using eq_append_of_jsStartsWith hps⟩
      refine ⟨_, q, ?_, hbase, ?_⟩
      · simp [apiUrl, hq, jsStartsWith]
      · have hd : "//".toList = ['/', '/'] := rfl
        rw [hq, hd] at hp
        simpa [jsStartsWith] using hp
    · simp only [Bool.not_eq_true] at hps
      have hps' : jsStartsWith p ['/'] = false := hps
      exact ⟨_, p, by simp [apiUrl, hps'], hbase, hps⟩

/-- C10 witness: under the default base, a bare path gets its single slash and
the join point carries exactly one slash. -/
theorem apiUrl_normalization_witness :
    (apiUrl ⟨false, none, none⟩ "x".toList
        = apiUrl ⟨false, none, none⟩ ('/' :: "x".toList)) ∧
    ∃ b rest, apiUrl ⟨false, none, none⟩ "x".toList = b ++ '/' :: rest ∧
      endsWithChar b '/' = false ∧ jsStartsWith rest "/".toList = false :=
  ⟨(apiUrl_normalization ⟨false, none, none⟩ "x".toList).1 (by decide),
   (apiUrl_normalization ⟨false, none, none⟩ "x".toList).2.2
     (by decide) (by decide)⟩

end DeepTutor
